import Mathlib

/-!
Verification of the sonik music player core (Rust sources:
`src/application/queue.rs`, `src/application/state.rs`,
`src/storage/database.rs`) against its natural-language specification.

The Rust code is shallowly embedded: structs become structures, `Vec<T>`
becomes `List T`, `usize`/`u32` counters become `Nat` (arithmetic overflow
would panic in the original; the model covers the non-panicking executions),
fallible operations return `Option`, and external effects (the filesystem
walk, the tag parser, the RNG, the fuzzy-match crate) are passed in as data.
-/

/-- `Track` record (`storage/record.rs`, used throughout `queue.rs` and
`database.rs`): title, album, album_artist, year, duration in whole seconds
(`u32`), and the path of the underlying file. -/
structure Track where
  title : String
  album : String
  album_artist : String
  year : Int
  duration : Nat
  file_path : String
  deriving DecidableEq, Repr, Inhabited

/-- Modelled from the spec: `Track::dummy` lives in `storage/record.rs`,
which is not among the provided sources; the spec (§3) describes it as a
sentinel Track with an empty title representing "nothing currently
playing". -/
def Track.dummy : Track :=
  { title := "", album := "", album_artist := "", year := 0, duration := 0,
    file_path := "" }

/-- `SonikQueue` (`application/queue.rs`): an ordered list of tracks plus a
running total duration. -/
structure SonikQueue where
  tracks : List Track
  total_time : Nat
  deriving DecidableEq, Repr

/-- `SonikQueue::new`: empty track list, zero total time. -/
def SonikQueue.new : SonikQueue :=
  { tracks := [], total_time := 0 }

/-- `SonikQueue::add`: `total_time += track.duration; tracks.push(track)`. -/
def SonikQueue.add (q : SonikQueue) (track : Track) : SonikQueue :=
  { q with total_time := q.total_time + track.duration,
           tracks := q.tracks ++ [track] }

/-- `SonikQueue::clear`: `tracks.clear(); total_time = 0`. -/
def SonikQueue.clear (_q : SonikQueue) : SonikQueue :=
  { tracks := [], total_time := 0 }

/-- `SonikQueue::shuffle`: `self.tracks.shuffle(&mut thread_rng())` permutes
the track vector in place and leaves `total_time` untouched.  The
rearrangement chosen by the external RNG is modelled as a bijection `σ` on
positions: entry `i` of the shuffled vector is entry `σ i` of the old one. -/
def SonikQueue.shuffle (q : SonikQueue) (σ : Equiv.Perm (Fin q.tracks.length)) :
    SonikQueue :=
  { q with tracks := List.ofFn (fun i => q.tracks.get (σ i)) }

/-- Modelled from the spec: `SonikQueue::add_to_front` is called from
`state.rs` but its definition is not among the provided sources.  Spec §4.4:
"`add_to_front(track)` inserts at the head ... with the same duration
bookkeeping" as `add`. -/
def SonikQueue.add_to_front (q : SonikQueue) (track : Track) : SonikQueue :=
  { q with total_time := q.total_time + track.duration,
           tracks := track :: q.tracks }

/-- Modelled from the spec: `SonikQueue::take` is called from
`UI::play_from_queue` in `state.rs` but its definition is not among the
provided sources.  Spec §4.4: "`take()` removes and returns the head
element, decrementing total duration by its duration, and is an error
condition if the queue is empty"; the error condition is modelled as
`none`. -/
def SonikQueue.take (q : SonikQueue) : Option (Track × SonikQueue) :=
  match q.tracks with
  | [] => none
  | t :: rest => some (t, { tracks := rest, total_time := q.total_time - t.duration })

/-- The queue bookkeeping invariant (spec §3): `total_time` equals the sum of
the durations of the contained tracks. -/
def SonikQueue.timeInv (q : SonikQueue) : Prop :=
  q.total_time = (q.tracks.map Track.duration).sum

instance (q : SonikQueue) : Decidable q.timeInv :=
  inferInstanceAs (Decidable (q.total_time = (q.tracks.map Track.duration).sum))

/-- `Album` record (`storage/record.rs`): title, denormalized artist name,
year, and the ordered list of tracks (ingestion order). -/
structure Album where
  title : String
  artist : String
  year : Int
  tracks : List Track
  deriving DecidableEq, Repr, Inhabited

/-- `Artist` record (`storage/record.rs`): display/matching title and the
ordered list of albums. -/
structure Artist where
  title : String
  albums : List Album
  deriving DecidableEq, Repr, Inhabited

/-- Modelled from the spec: `Album::new` lives in `storage/record.rs`, which
is not among the provided sources.  Per §4.1 a fresh album carries the given
title, the artist name (denormalized for matching, §3) and year; the caller
in `database.rs` pushes the first track immediately afterwards, so the new
album starts with no tracks. -/
def Album.new (title artist : String) (year : Int) : Album :=
  { title := title, artist := artist, year := year, tracks := [] }

/-- Modelled from the spec: `Album::update_album` lives in
`storage/record.rs`, which is not among the provided sources.  Per §4.1
("append the Track if found") and §3 (track order inside an album is
ingestion order) it appends the track at the end of the album. -/
def Album.update_album (al : Album) (t : Track) : Album :=
  { al with tracks := al.tracks ++ [t] }

/-- Modelled from the spec: `Artist::new` lives in `storage/record.rs`,
which is not among the provided sources; a fresh artist has the given title
and no albums yet. -/
def Artist.new (title : String) : Artist :=
  { title := title, albums := [] }

/-- Modelled from the spec: `Artist::add_album` lives in
`storage/record.rs`, which is not among the provided sources; per §3 the
album sequence is kept in insertion order, so the new album is appended. -/
def Artist.add_album (a : Artist) (al : Album) : Artist :=
  { a with albums := a.albums ++ [al] }

/-- Rust `Iterator::position`: the index of the first element satisfying
`p`, or `None`. -/
def position (p : α → Bool) : List α → Option Nat
  | [] => none
  | x :: xs => if p x then some 0 else (position p xs).map (· + 1)

/-- In-place mutation `v[i] = f(v[i])` of a vector at a valid index
(`database.rs` only indexes with results of `Iterator::position`). -/
def updateAt (l : List α) (i : Nat) (f : α → α) : List α :=
  match l, i with
  | [], _ => []
  | x :: xs, 0 => f x :: xs
  | x :: xs, n + 1 => x :: updateAt xs n f

/-- `add_to_database` (`database.rs` lines 114-162): find the first artist
whose title equals `artist_name` exactly; inside it find the first album
whose title equals `album_title` exactly and append the track there, else
push a new album seeded with the track; if no artist matches, push a new
artist holding a new album with the track. -/
def add_to_database (artist_name album_title : String) (album_year : Int)
    (t : Track) (artists : List Artist) : List Artist :=
  match position (fun a => a.title == artist_name) artists with
  | some idx =>
    match position (fun al => al.title == album_title)
        (artists.getD idx default).albums with
    | some al_idx =>
        updateAt artists idx (fun a =>
          { a with albums := updateAt a.albums al_idx (fun al => al.update_album t) })
    | none =>
        updateAt artists idx (fun a =>
          a.add_album ((Album.new album_title artist_name album_year).update_album t))
  | none =>
      artists ++
        [(Artist.new artist_name).add_album
          ((Album.new album_title artist_name album_year).update_album t)]

/-- `add_to_database_helper` (`database.rs` lines 103-112): copies the
matching keys out of the track and calls `add_to_database`. -/
def add_to_database_helper (t : Track) (artists : List Artist) : List Artist :=
  add_to_database t.album_artist t.album t.year t artists

/-- Recursive reformulation of the album-level branch of `add_to_database`
(append to the first album whose title matches, else push a fresh album
seeded with the track); `add_to_database_eq_insertArtists` proves it equal
to the index-based code path, and all inductive reasoning runs on it. -/
def insertAlbums (album_title artist_name : String) (album_year : Int)
    (t : Track) : List Album → List Album
  | [] => [(Album.new album_title artist_name album_year).update_album t]
  | al :: rest =>
    if al.title == album_title then al.update_album t :: rest
    else al :: insertAlbums album_title artist_name album_year t rest

/-- Recursive reformulation of `add_to_database` (modify the first artist
whose title matches, else push a fresh artist). -/
def insertArtists (artist_name album_title : String) (album_year : Int)
    (t : Track) : List Artist → List Artist
  | [] => [(Artist.new artist_name).add_album
            ((Album.new album_title artist_name album_year).update_album t)]
  | a :: rest =>
    if a.title == artist_name then
      { a with albums := insertAlbums album_title artist_name album_year t a.albums }
        :: rest
    else a :: insertArtists artist_name album_title album_year t rest

/-- The grouping algorithm of §4.1 applied to a sequence of ingested tracks
(the successive `add_to_database_helper` calls made by the walk loop in
`create_and_load_database`). -/
def buildDatabase (ts : List Track) : List Artist :=
  ts.foldl (fun artists t => add_to_database_helper t artists) []

/-- Rust `char` lowercasing as exercised by the artist sort
(`a.title.to_lowercase()`), modelled on the ASCII range: uppercase letters
are shifted by 32, every other character is returned unchanged. -/
def charToLower (c : Char) : Char :=
  if 65 ≤ c.toNat ∧ c.toNat ≤ 90 then Char.ofNat (c.toNat + 32) else c

/-- `String::to_lowercase`, modelled characterwise via `charToLower`. -/
def strToLower (s : String) : String :=
  String.mk (s.data.map charToLower)

/-- Rust `Ord::cmp` on strings is lexicographic on the UTF-8 bytes, which
coincides with lexicographic code-point order; `charListLe as bs` is
`cmp(as, bs) != Greater`. -/
def charListLe : List Char → List Char → Bool
  | [], _ => true
  | _ :: _, [] => false
  | a :: as, b :: bs =>
    if a.toNat < b.toNat then true
    else if b.toNat < a.toNat then false
    else charListLe as bs

/-- The comparator of `database.rs` line 86:
`|a, b| a.title.to_lowercase().cmp(&b.title.to_lowercase())`, as the
boolean "not greater" relation driving the ascending sort. -/
def artistLe (a b : Artist) : Bool :=
  charListLe (strToLower a.title).data (strToLower b.title).data

/-- One entry of the filesystem walk, carrying exactly the data the code
reads: whether the path is a directory, its extension (`none` when the path
has none), and the outcome of the external tag parser `Track::new` (`none`
models `Err`).  A walk `result` that is itself `Err` (unreadable entry) is
modelled as `none` at the outer level. -/
structure DirEntry where
  is_dir : Bool
  ext : Option String
  track_new : Option Track
  deriving DecidableEq, Repr

/-- `is_music` (`database.rs` lines 46-63): directories are never music;
otherwise the extension must be exactly `mp3`, `flac` or `ogg` (the
string match is case-sensitive; a missing extension returns `false`). -/
def is_music (entry : DirEntry) : Bool :=
  if entry.is_dir then false
  else
    match entry.ext with
    | some "mp3" => true
    | some "flac" => true
    | some "ogg" => true
    | some _ => false
    | none => false

/-- The walk loop of `create_and_load_database` (`database.rs` lines
70-79): `Err` results are skipped, non-music entries are skipped, a failed
`Track::new` is skipped, and each successfully parsed track is grouped into
the accumulating artist list. -/
def ingestWalk (walk : List (Option DirEntry)) : List Artist :=
  walk.foldl (fun artists result =>
    match result with
    | some entry =>
      if is_music entry then
        match entry.track_new with
        | some t => add_to_database_helper t artists
        | none => artists
      else artists
    | none => artists) []

/-- `create_and_load_database` (`database.rs` lines 65-91), its pure core:
walk, group, then sort the artists with the case-insensitive comparator
(`sort_by` is Rust's stable merge sort).  Writing the snapshot file is an
external effect covered by the serializer model below. -/
def create_and_load_database (walk : List (Option DirEntry)) : List Artist :=
  (ingestWalk walk).mergeSort artistLe

/-- Structural well-formedness of a grouped artist list: artist titles are
pairwise distinct, album titles inside one artist are pairwise distinct,
every album carries its owning artist's name, and every track sits in the
album matching its own (album_artist, album) key. -/
def DbInv (artists : List Artist) : Prop :=
  ((artists.map Artist.title).Nodup) ∧
  (∀ a ∈ artists, ((a.albums.map Album.title).Nodup)) ∧
  (∀ a ∈ artists, ∀ al ∈ a.albums, al.artist = a.title) ∧
  (∀ a ∈ artists, ∀ al ∈ a.albums, ∀ t ∈ al.tracks,
    t.album_artist = a.title ∧ t.album = al.title)

/-- Membership of a track somewhere in the grouped library. -/
def Placed (lib : List Artist) (t : Track) : Prop :=
  ∃ a ∈ lib, ∃ al ∈ a.albums, t ∈ al.tracks

/-- Modelled from the spec: persistence goes through
`bincode::serialize_into` and the `Serialize` derives of
`storage/record.rs`, neither of which is among the provided sources.  Per
§4.2/§6 the snapshot is "a length-prefixed serialized record graph": it is
modelled as a stream of integer tokens in which every string and every
sequence is written as its length followed by its elements, and record
fields are written in declaration order.  A string is its character count
followed by the code points. -/
def encodeString (s : String) : List Int :=
  (s.data.length : Int) :: s.data.map (fun c => (c.toNat : Int))

/-- Track record in the snapshot stream: fields in declaration order. -/
def encodeTrack (t : Track) : List Int :=
  encodeString t.title ++ encodeString t.album ++ encodeString t.album_artist ++
    [t.year] ++ [(t.duration : Int)] ++ encodeString t.file_path

/-- Length-prefixed sequence in the snapshot stream. -/
def encodeList (enc : α → List Int) (l : List α) : List Int :=
  (l.length : Int) :: (l.map enc).flatten

/-- Album record in the snapshot stream. -/
def encodeAlbum (al : Album) : List Int :=
  encodeString al.title ++ encodeString al.artist ++ [al.year] ++
    encodeList encodeTrack al.tracks

/-- Artist record in the snapshot stream. -/
def encodeArtist (a : Artist) : List Int :=
  encodeString a.title ++ encodeList encodeAlbum a.albums

/-- Modelled from the spec: the writer side of the snapshot
(`serialize_into(&mut f, &artists)` in `create_and_load_database`). -/
def serialize_into (artists : List Artist) : List Int :=
  encodeList encodeArtist artists

/-- Reads one non-negative length/count token from the stream. -/
def decodeNat : List Int → Option (Nat × List Int)
  | [] => none
  | n :: rest => if n < 0 then none else some (n.toNat, rest)

/-- Reads one signed integer token from the stream. -/
def decodeInt : List Int → Option (Int × List Int)
  | [] => none
  | n :: rest => some (n, rest)

/-- Reads `n` character tokens from the stream. -/
def decodeChars : Nat → List Int → Option (List Char × List Int)
  | 0, s => some ([], s)
  | _ + 1, [] => none
  | n + 1, c :: rest => do
    let (cs, s) ← decodeChars n rest
    pure (Char.ofNat c.toNat :: cs, s)

/-- Reads one length-prefixed string from the stream. -/
def decodeString (s : List Int) : Option (String × List Int) := do
  let (n, s1) ← decodeNat s
  let (cs, s2) ← decodeChars n s1
  pure (String.mk cs, s2)

/-- Reads `n` consecutive records from the stream. -/
def decodeCount (dec : List Int → Option (α × List Int)) :
    Nat → List Int → Option (List α × List Int)
  | 0, s => some ([], s)
  | n + 1, s => do
    let (x, s1) ← dec s
    let (xs, s2) ← decodeCount dec n s1
    pure (x :: xs, s2)

/-- Reads one length-prefixed sequence from the stream. -/
def decodeList (dec : List Int → Option (α × List Int)) (s : List Int) :
    Option (List α × List Int) := do
  let (n, s1) ← decodeNat s
  decodeCount dec n s1

/-- Reads one Track record from the stream. -/
def decodeTrack (s : List Int) : Option (Track × List Int) := do
  let (title, s1) ← decodeString s
  let (album, s2) ← decodeString s1
  let (album_artist, s3) ← decodeString s2
  let (year, s4) ← decodeInt s3
  let (duration, s5) ← decodeNat s4
  let (file_path, s6) ← decodeString s5
  pure ({ title := title, album := album, album_artist := album_artist,
          year := year, duration := duration, file_path := file_path }, s6)

/-- Reads one Album record from the stream. -/
def decodeAlbum (s : List Int) : Option (Album × List Int) := do
  let (title, s1) ← decodeString s
  let (artist, s2) ← decodeString s1
  let (year, s3) ← decodeInt s2
  let (tracks, s4) ← decodeList decodeTrack s3
  pure ({ title := title, artist := artist, year := year, tracks := tracks }, s4)

/-- Reads one Artist record from the stream. -/
def decodeArtist (s : List Int) : Option (Artist × List Int) := do
  let (title, s1) ← decodeString s
  let (albums, s2) ← decodeList decodeAlbum s1
  pure ({ title := title, albums := albums }, s2)

/-- Modelled from the spec: the reader side of the snapshot
(`deserialize_from` in `load_database`), which per §4.2 "deserializes
exactly the format written" — any decode failure, including trailing
garbage, is fatal (`none`). -/
def deserialize_from (s : List Int) : Option (List Artist) := do
  let (artists, rest) ← decodeList decodeArtist s
  if rest.isEmpty then pure artists else none

/-- Modelled from the spec: the query scope tag (`Term` in
`storage/terms.rs`, which is not among the provided sources); §4.3: "A
query carries a single scope tag — title, album, or artist". -/
inductive Term
  | Title (s : String)
  | Album (s : String)
  | Artist (s : String)
  deriving DecidableEq, Repr

/-- `SearchQuery` (`storage/terms.rs`): the parsed query, as consumed by
`search` in `database.rs`. -/
structure SearchQuery where
  terms : Term
  deriving DecidableEq, Repr

/-- First whitespace-delimited token of the input. -/
def firstWord : List Char → List Char
  | [] => []
  | c :: cs => if c = ' ' then [] else c :: firstWord cs

/-- What follows the first whitespace-delimited token of the input. -/
def restAfterWord : List Char → List Char
  | [] => []
  | c :: cs => if c = ' ' then cs else restAfterWord cs

/-- Modelled from the spec: `SearchQuery::new` (`storage/terms.rs` is not
among the provided sources).  §4.3: "the query string is tokenized to
detect an optional scope prefix; absence of a recognized prefix must be
treated as a parse failure (no default scope), returning no query object";
the scope markers select the title, album or artist index and the remainder
of the string is the query text. -/
def SearchQuery.new (input : String) : Option SearchQuery :=
  let scope := String.mk (firstWord input.data)
  let text := String.mk (restAfterWord input.data)
  if scope == "title" then some ⟨Term.Title text⟩
  else if scope == "album" then some ⟨Term.Album text⟩
  else if scope == "artist" then some ⟨Term.Artist text⟩
  else none

/-- The three fuzzy indices (`EngineGroup` over `Engine` in `database.rs`).
The simsearch crate is external: each engine is modelled as the
coordinate-list-valued search function it implements. -/
structure EngineGroup where
  artists : String → List Nat
  albums : String → List (Nat × Nat)
  tracks : String → List (Nat × Nat × Nat)

/-- `SearchResult` (`database.rs` lines 36-44): coordinate lists at the
three granularities. -/
inductive SearchResult
  | Artists (r : List Nat)
  | Albums (r : List (Nat × Nat))
  | Tracks (r : List (Nat × Nat × Nat))
  deriving DecidableEq, Repr

/-- `search` (`database.rs` lines 217-223): the scope tag selects exactly
one of the three engines; the other two are not consulted. -/
def search (engine : EngineGroup) (query : SearchQuery) : SearchResult :=
  match query.terms with
  | Term.Title s => SearchResult.Tracks (engine.tracks s)
  | Term.Album s => SearchResult.Albums (engine.albums s)
  | Term.Artist s => SearchResult.Artists (engine.artists s)

/-- `state.rs` imports the database-level search under the alias
`db_search` (`use crate::storage::database::search as db_search`). -/
def db_search (engine : EngineGroup) (query : SearchQuery) : SearchResult :=
  search engine query

/-- `Media` (`storage/record.rs`, shape recoverable from its uses in
`state.rs`): one search-result row holding a full artist, album or track
record. -/
inductive Media
  | Artist (a : Artist)
  | Album (a : Album)
  | Track (t : Track)
  deriving DecidableEq, Repr

instance : Inhabited Media :=
  ⟨Media.Track default⟩

/-- `ListState` (`state.rs` lines 38-65): a list plus the selected index. -/
structure ListState (I : Type) where
  items : List I
  selected : Nat
  deriving DecidableEq, Repr

/-- `ListState::new`: selection starts at 0. -/
def ListState.new (items : List I) : ListState I :=
  { items := items, selected := 0 }

/-- `ListState::select_next`:
`self.selected = (self.selected + 1) % self.items.len()`.  The `%` by zero
on an empty list panics in Rust, modelled by `none`. -/
def ListState.select_next (s : ListState I) : Option (ListState I) :=
  if s.items.length = 0 then none
  else some { s with selected := (s.selected + 1) % s.items.length }

/-- `ListState::select_previous`: step back, or wrap to
`self.items.len() - 1`; the wrap underflows `usize` on an empty list
(panic in debug builds, out-of-range index otherwise), modelled by
`none`. -/
def ListState.select_previous (s : ListState I) : Option (ListState I) :=
  if s.selected > 0 then some { s with selected := s.selected - 1 }
  else if s.items.length = 0 then none
  else some { s with selected := s.items.length - 1 }

/-- `LibraryCols` (`state.rs` lines 68-73). -/
structure LibraryCols where
  artists : ListState Artist
  albums : ListState Album
  tracks : ListState Track
  current_active : Nat
  deriving DecidableEq, Repr

/-- The `UI` state (`state.rs` lines 176-190) restricted to its data
fields; the channel endpoints, the statistics block and the fuzzy engine
handle are external resources and are passed separately where used. -/
structure UI where
  queue : SonikQueue
  should_quit : Bool
  lib_cols : LibraryCols
  now_playing : Track
  search_input : String
  search_results : List Media
  search_select : Nat
  deriving DecidableEq, Repr

/-- `UI::new` (`state.rs` lines 193-229): builds the three library columns,
indexing `database[0]` and `database[0].albums[0]` (each indexing panics on
an empty list, modelled by `none`), and initializes every other field. -/
def UI.new (database : List Artist) : Option UI :=
  match database with
  | [] => none
  | a0 :: _ =>
    match a0.albums with
    | [] => none
    | al0 :: _ =>
      some { queue := SonikQueue.new,
             should_quit := false,
             lib_cols := { artists := ListState.new database,
                           albums := ListState.new a0.albums,
                           tracks := ListState.new al0.tracks,
                           current_active := 0 },
             now_playing := Track.dummy,
             search_input := "",
             search_results := [],
             search_select := 0 }

/-- `UI::search` (`state.rs` lines 375-403): return early on an empty
input; parse the input into a query; clear the input; return early when
parsing produced no query object; otherwise replace `search_results` with
the rows found by the selected engine.  Coordinate lookups
(`artists.items[i]` etc.) are modelled with `getD`: engine coordinates are
in range for the library the engine was built over. -/
def UI.search (engine : EngineGroup) (ui : UI) : UI :=
  if ui.search_input == "" then ui
  else
    let query_term := SearchQuery.new ui.search_input
    let ui1 := { ui with search_input := "" }
    match query_term with
    | none => ui1
    | some q =>
      { ui1 with search_results :=
          match db_search engine q with
          | SearchResult.Artists r => r.map (fun x =>
              Media.Artist (ui.lib_cols.artists.items.getD x default))
          | SearchResult.Albums r => r.map (fun x =>
              Media.Album ((ui.lib_cols.artists.items.getD x.1 default).albums.getD
                x.2 default))
          | SearchResult.Tracks r => r.map (fun x =>
              Media.Track (((ui.lib_cols.artists.items.getD x.1 default).albums.getD
                x.2.1 default).tracks.getD x.2.2 default)) }

/-- `UI::on_down_search` (`state.rs` lines 413-415):
`search_select = (search_select + 1) % search_results.len()`; `%` by zero
panics, modelled by `none`. -/
def UI.on_down_search (ui : UI) : Option UI :=
  if ui.search_results.length = 0 then none
  else some { ui with search_select := (ui.search_select + 1) % ui.search_results.length }

/-- `UI::on_up_search` (`state.rs` lines 405-411): step back, or wrap to
`search_results.len() - 1`; the wrap underflows `usize` on an empty result
list, modelled by `none`. -/
def UI.on_up_search (ui : UI) : Option UI :=
  if ui.search_select > 0 then some { ui with search_select := ui.search_select - 1 }
  else if ui.search_results.length = 0 then none
  else some { ui with search_select := ui.search_results.length - 1 }

/-- The walk of the spec's sorting example: three eligible files whose tags
name the album artists "beta", "Alpha" and "gamma", ingested in that
order. -/
def exampleWalkC3 : List (Option DirEntry) :=
  [some ⟨false, some "mp3", some ⟨"s1", "X", "beta", 0, 1, "p1"⟩⟩,
   some ⟨false, some "mp3", some ⟨"s2", "Y", "Alpha", 0, 1, "p2"⟩⟩,
   some ⟨false, some "mp3", some ⟨"s3", "Z", "gamma", 0, 1, "p3"⟩⟩]

/-- The artist record grouped from the first example file, pre-sort. -/
def betaC3 : Artist :=
  ⟨"beta", [⟨"X", "beta", 0, [⟨"s1", "X", "beta", 0, 1, "p1"⟩]⟩]⟩

/-- The artist record grouped from the second example file, pre-sort. -/
def alphaC3 : Artist :=
  ⟨"Alpha", [⟨"Y", "Alpha", 0, [⟨"s2", "Y", "Alpha", 0, 1, "p2"⟩]⟩]⟩

/-- The artist record grouped from the third example file, pre-sort. -/
def gammaC3 : Artist :=
  ⟨"gamma", [⟨"Z", "gamma", 0, [⟨"s3", "Z", "gamma", 0, 1, "p3"⟩]⟩]⟩

/-- A concrete engine group whose three indices return no rows, used to
instantiate statements about the UI search flow. -/
def emptyEngine : EngineGroup :=
  { artists := fun _ => [], albums := fun _ => [], tracks := fun _ => [] }

/-- A concrete UI state holding one displayed search row and a pending
query without a recognized scope marker. -/
def uiNoScope : UI :=
  { queue := SonikQueue.new,
    should_quit := false,
    lib_cols := { artists := ⟨[], 0⟩, albums := ⟨[], 0⟩, tracks := ⟨[], 0⟩,
                  current_active := 0 },
    now_playing := Track.dummy,
    search_input := "xyz",
    search_results := [Media.Track Track.dummy],
    search_select := 0 }

/-- The in-place shuffle only rearranges the track vector: the result is a
permutation of the original list. -/
theorem shuffle_tracks_perm (q : SonikQueue) (σ : Equiv.Perm (Fin q.tracks.length)) :
    (q.shuffle σ).tracks.Perm q.tracks := by
  show (List.ofFn (fun i => q.tracks.get (σ i))).Perm q.tracks
  have hfin : (List.map (fun i => σ i) (List.finRange q.tracks.length)).Perm
      (List.finRange q.tracks.length) := by
    refine (List.perm_ext_iff_of_nodup ?_ (List.nodup_finRange _)).2 ?_
    · exact (List.nodup_finRange _).map (fun a b hab => σ.injective hab)
    · intro a
      simp only [List.mem_map, List.mem_finRange, true_and, iff_true]
      exact ⟨σ.symm a, Equiv.apply_symm_apply σ a⟩
  have h2 : List.ofFn (fun i => q.tracks.get (σ i))
      = List.map q.tracks.get (List.map (fun i => σ i) (List.finRange q.tracks.length)) := by
    rw [List.ofFn_eq_map, List.map_map]; rfl
  have h3 : List.map q.tracks.get (List.finRange q.tracks.length) = q.tracks := by
    rw [← List.ofFn_eq_map, List.ofFn_get]
  rw [h2]
  exact (hfin.map q.tracks.get).trans (by rw [h3])

/-- Claim C1: every queue operation preserves the invariant
`total_time = sum of contained durations`; every insert increases
`total_time` by exactly the inserted duration, and `clear` resets it to
zero. -/
theorem queue_total_time_invariant (q : SonikQueue) (t : Track) (h : q.timeInv) :
    (q.add t).timeInv ∧ (q.add t).total_time = q.total_time + t.duration ∧
    (q.add_to_front t).timeInv ∧
    (q.add_to_front t).total_time = q.total_time + t.duration ∧
    (∀ σ : Equiv.Perm (Fin q.tracks.length), (q.shuffle σ).timeInv) ∧
    (q.clear).timeInv ∧ (q.clear).total_time = 0 ∧
    (∀ t0 q2, q.take = some (t0, q2) → q2.timeInv) := by
  unfold SonikQueue.timeInv at h
  refine ⟨?_, rfl, ?_, rfl, ?_, rfl, rfl, ?_⟩
  · show q.total_time + t.duration = ((q.tracks ++ [t]).map Track.duration).sum
    simp [h]
  · show q.total_time + t.duration = ((t :: q.tracks).map Track.duration).sum
    simp [h, Nat.add_comm]
  · intro σ
    show q.total_time = (((q.shuffle σ).tracks).map Track.duration).sum
    rw [((shuffle_tracks_perm q σ).map Track.duration).sum_eq, h]
  · intro t0 q2 htake
    unfold SonikQueue.take at htake
    cases hq : q.tracks with
    | nil => rw [hq] at htake; simp at htake
    | cons a rest =>
      rw [hq] at htake
      simp only [Option.some.injEq, Prod.mk.injEq] at htake
      obtain ⟨h1, h2⟩ := htake
      subst h1
      subst h2
      unfold SonikQueue.timeInv
      rw [h, hq]
      simp only [List.map_cons, List.sum_cons]
      omega

/-- Witness for C1 at a concrete queue satisfying the invariant. -/
theorem queue_total_time_invariant_witness :
    (SonikQueue.mk [Track.dummy] 0).timeInv ∧
    ((SonikQueue.mk [Track.dummy] 0).add Track.dummy).timeInv := by
  have h : (SonikQueue.mk [Track.dummy] 0).timeInv := by decide
  exact ⟨h, (queue_total_time_invariant (SonikQueue.mk [Track.dummy] 0) Track.dummy h).1⟩

/-- Claim C5: on a non-empty queue, `take` removes the head, returns it and
decrements `total_time` by exactly the head track's duration; `take` is
`none` exactly on the empty queue. -/
theorem take_head_spec (q : SonikQueue) (hinv : q.timeInv) :
    (q.take = none ↔ q.tracks = []) ∧
    ∀ t rest, q.tracks = t :: rest →
      q.take = some (t, SonikQueue.mk rest (q.total_time - t.duration)) ∧
      (q.total_time - t.duration) + t.duration = q.total_time := by
  constructor
  · unfold SonikQueue.take
    cases hq : q.tracks <;> simp
  · intro t rest hq
    constructor
    · unfold SonikQueue.take
      rw [hq]
    · unfold SonikQueue.timeInv at hinv
      rw [hq] at hinv
      simp only [List.map_cons, List.sum_cons] at hinv
      omega

/-- Witness for C5 at a concrete one-element queue. -/
theorem take_head_spec_witness :
    (SonikQueue.mk [Track.dummy] 0).take =
      some (Track.dummy, SonikQueue.mk [] 0) := by
  have h := take_head_spec (SonikQueue.mk [Track.dummy] 0) (by decide)
  exact (h.2 Track.dummy [] rfl).1

/-- Claim C6: `shuffle` preserves the multiset of contained tracks and
leaves `total_time` unchanged, for every permutation the RNG may choose. -/
theorem shuffle_preserves_multiset_and_total_time (q : SonikQueue)
    (σ : Equiv.Perm (Fin q.tracks.length)) :
    ((q.shuffle σ).tracks : Multiset Track) = (q.tracks : Multiset Track) ∧
    (q.shuffle σ).total_time = q.total_time := by
  refine ⟨?_, rfl⟩
  exact Multiset.coe_eq_coe.2 (shuffle_tracks_perm q σ)

/-- The album-level branch of `add_to_database` (first-match lookup via
`position`, then an in-place update or a push) equals the recursive
`insertAlbums`. -/
theorem insertAlbums_eq_position (β n : String) (y : Int) (t : Track)
    (ll : List Album) :
    insertAlbums β n y t ll =
      (match position (fun al => al.title == β) ll with
       | some j => updateAt ll j (fun al => al.update_album t)
       | none => ll ++ [(Album.new β n y).update_album t]) := by
  induction ll with
  | nil => rfl
  | cons al rest ih =>
    cases ha : (al.title == β) with
    | true => simp [insertAlbums, position, ha, updateAt]
    | false =>
      simp only [insertAlbums, position, ha, Bool.false_eq_true, if_false, ite_false,
        cond_false]
      cases hr : position (fun al => al.title == β) rest with
      | none =>
        simp only [hr] at ih
        simp [ih, hr]
      | some j =>
        simp only [hr] at ih
        simp [ih, hr, updateAt]

/-- `add_to_database` equals the recursive `insertArtists`: the index-based
code path and the structural recursion perform the same update. -/
theorem add_to_database_eq_insertArtists (n β : String) (y : Int) (t : Track)
    (l : List Artist) :
    add_to_database n β y t l = insertArtists n β y t l := by
  induction l with
  | nil => rfl
  | cons a rest ih =>
    cases ha : (a.title == n) with
    | true =>
      unfold add_to_database insertArtists
      simp only [position, ha, if_true, ite_true, List.getD_cons_zero]
      rw [insertAlbums_eq_position β n y t a.albums]
      cases hal : position (fun al => al.title == β) a.albums with
      | some j => simp [hal, updateAt]
      | none => simp [hal, updateAt, Artist.add_album]
    | false =>
      unfold add_to_database insertArtists
      simp only [position, ha, Bool.false_eq_true, if_false, ite_false, cond_false]
      cases hr : position (fun a => a.title == n) rest with
      | none =>
        unfold add_to_database at ih
        rw [hr] at ih
        simp [hr, ← ih]
      | some i =>
        unfold add_to_database at ih
        rw [hr] at ih
        simp only [Option.map_some', List.getD_cons_succ]
        cases hq : position (fun al => al.title == β) ((rest.getD i default).albums) with
        | some al_idx =>
          simp only [hq] at ih
          simp [← ih, updateAt]
        | none =>
          simp only [hq] at ih
          simp [← ih, updateAt]

/-- `insertAlbums` either leaves the album-title sequence unchanged (a
title matched) or appends the new title at the end. -/
theorem insertAlbums_map_title (β n : String) (y : Int) (t : Track)
    (ll : List Album) :
    (insertAlbums β n y t ll).map Album.title =
      (if ll.any (fun al => al.title == β) then ll.map Album.title
       else ll.map Album.title ++ [β]) := by
  induction ll with
  | nil => rfl
  | cons al rest ih =>
    cases ha : (al.title == β) with
    | true => simp [insertAlbums, ha, Album.update_album]
    | false =>
      simp only [insertAlbums, ha, Bool.false_eq_true, ite_false, List.map_cons,
        List.any_cons, Bool.false_or, ih]
      cases hany : rest.any (fun al => al.title == β) <;> simp [hany]

/-- Every album of `insertAlbums β n y t ll` is an old album, an old album
with matching title extended by `t`, or the freshly created album. -/
theorem insertAlbums_mem (β n : String) (y : Int) (t : Track) (ll : List Album)
    (al2 : Album) (h : al2 ∈ insertAlbums β n y t ll) :
    al2 ∈ ll ∨ (∃ al ∈ ll, al.title = β ∧ al2 = al.update_album t) ∨
      al2 = (Album.new β n y).update_album t := by
  induction ll with
  | nil =>
    simp [insertAlbums] at h
    simp [h]
  | cons al rest ih =>
    cases ha : (al.title == β) with
    | true =>
      simp only [insertAlbums, ha, ite_true] at h
      rcases List.mem_cons.1 h with h1 | h1
      · exact Or.inr (Or.inl ⟨al, List.mem_cons_self al rest, eq_of_beq ha, h1⟩)
      · exact Or.inl (List.mem_cons_of_mem _ h1)
    | false =>
      simp only [insertAlbums, ha, Bool.false_eq_true, ite_false] at h
      rcases List.mem_cons.1 h with h1 | h1
      · exact Or.inl (h1 ▸ List.mem_cons_self al rest)
      · rcases ih h1 with h2 | h2 | h2
        · exact Or.inl (List.mem_cons_of_mem _ h2)
        · obtain ⟨al3, hm, ht, he⟩ := h2
          exact Or.inr (Or.inl ⟨al3, List.mem_cons_of_mem _ hm, ht, he⟩)
        · exact Or.inr (Or.inr h2)

/-- Every old album survives `insertAlbums` with its title, artist and
tracks (possibly extended) intact. -/
theorem insertAlbums_preserve (β n : String) (y : Int) (t : Track)
    (ll : List Album) (al : Album) (h : al ∈ ll) :
    ∃ al2 ∈ insertAlbums β n y t ll, al2.title = al.title ∧
      al2.artist = al.artist ∧ ∀ t0 ∈ al.tracks, t0 ∈ al2.tracks := by
  induction ll with
  | nil => cases h
  | cons al1 rest ih =>
    cases ha : (al1.title == β) with
    | true =>
      simp only [insertAlbums, ha, ite_true]
      rcases List.mem_cons.1 h with h1 | h1
      · subst h1
        exact ⟨al.update_album t, List.mem_cons_self _ _, rfl, rfl,
          fun t0 ht0 => by simp [Album.update_album, ht0]⟩
      · exact ⟨al, List.mem_cons_of_mem _ h1, rfl, rfl, fun t0 ht0 => ht0⟩
    | false =>
      simp only [insertAlbums, ha, Bool.false_eq_true, ite_false]
      rcases List.mem_cons.1 h with h1 | h1
      · subst h1
        exact ⟨al, List.mem_cons_self _ _, rfl, rfl, fun t0 ht0 => ht0⟩
      · obtain ⟨al2, hm, h3⟩ := ih h1
        exact ⟨al2, List.mem_cons_of_mem _ hm, h3⟩

/-- `insertAlbums` files `t` into an album titled `β`. -/
theorem insertAlbums_places (β n : String) (y : Int) (t : Track)
    (ll : List Album) :
    ∃ al2 ∈ insertAlbums β n y t ll, al2.title = β ∧ t ∈ al2.tracks := by
  induction ll with
  | nil =>
    exact ⟨(Album.new β n y).update_album t, by simp [insertAlbums], rfl,
      by simp [Album.new, Album.update_album]⟩
  | cons al rest ih =>
    cases ha : (al.title == β) with
    | true =>
      refine ⟨al.update_album t, ?_, eq_of_beq ha, by simp [Album.update_album]⟩
      simp [insertAlbums, ha]
    | false =>
      obtain ⟨al2, hm, h1, h2⟩ := ih
      refine ⟨al2, ?_, h1, h2⟩
      simp only [insertAlbums, ha, Bool.false_eq_true, ite_false]
      exact List.mem_cons_of_mem _ hm

/-- `insertArtists` either leaves the artist-title sequence unchanged (a
title matched) or appends the new title at the end. -/
theorem insertArtists_map_title (n β : String) (y : Int) (t : Track)
    (l : List Artist) :
    (insertArtists n β y t l).map Artist.title =
      (if l.any (fun a => a.title == n) then l.map Artist.title
       else l.map Artist.title ++ [n]) := by
  induction l with
  | nil => rfl
  | cons a rest ih =>
    cases ha : (a.title == n) with
    | true => simp [insertArtists, ha]
    | false =>
      simp only [insertArtists, ha, Bool.false_eq_true, ite_false, List.map_cons,
        List.any_cons, Bool.false_or, ih]
      cases hany : rest.any (fun a => a.title == n) <;> simp [hany]

/-- Every artist of `insertArtists n β y t l` is an old artist, the old
artist with matching title whose albums got `insertAlbums` applied, or the
freshly created artist. -/
theorem insertArtists_mem (n β : String) (y : Int) (t : Track) (l : List Artist)
    (a2 : Artist) (h : a2 ∈ insertArtists n β y t l) :
    a2 ∈ l ∨
    (∃ a ∈ l, a.title = n ∧
      a2 = { a with albums := insertAlbums β n y t a.albums }) ∨
    a2 = (Artist.new n).add_album ((Album.new β n y).update_album t) := by
  induction l with
  | nil =>
    simp [insertArtists] at h
    simp [h]
  | cons a rest ih =>
    cases ha : (a.title == n) with
    | true =>
      simp only [insertArtists, ha, ite_true] at h
      rcases List.mem_cons.1 h with h1 | h1
      · exact Or.inr (Or.inl ⟨a, List.mem_cons_self a rest, eq_of_beq ha, h1⟩)
      · exact Or.inl (List.mem_cons_of_mem _ h1)
    | false =>
      simp only [insertArtists, ha, Bool.false_eq_true, ite_false] at h
      rcases List.mem_cons.1 h with h1 | h1
      · exact Or.inl (h1 ▸ List.mem_cons_self a rest)
      · rcases ih h1 with h2 | h2 | h2
        · exact Or.inl (List.mem_cons_of_mem _ h2)
        · obtain ⟨a3, hm, ht, he⟩ := h2
          exact Or.inr (Or.inl ⟨a3, List.mem_cons_of_mem _ hm, ht, he⟩)
        · exact Or.inr (Or.inr h2)

/-- Every old artist survives `insertArtists` with its title intact and
each of its albums preserved (title, artist field and tracks, the latter
possibly extended). -/
theorem insertArtists_preserve (n β : String) (y : Int) (t : Track)
    (l : List Artist) (a : Artist) (h : a ∈ l) :
    ∃ a2 ∈ insertArtists n β y t l, a2.title = a.title ∧
      ∀ al ∈ a.albums, ∃ al2 ∈ a2.albums, al2.title = al.title ∧
        al2.artist = al.artist ∧ ∀ t0 ∈ al.tracks, t0 ∈ al2.tracks := by
  induction l with
  | nil => cases h
  | cons a1 rest ih =>
    cases ha : (a1.title == n) with
    | true =>
      simp only [insertArtists, ha, ite_true]
      rcases List.mem_cons.1 h with h1 | h1
      · subst h1
        refine ⟨{ a with albums := insertAlbums β n y t a.albums },
          List.mem_cons_self _ _, rfl, ?_⟩
        intro al hal
        exact insertAlbums_preserve β n y t a.albums al hal
      · exact ⟨a, List.mem_cons_of_mem _ h1, rfl,
          fun al hal => ⟨al, hal, rfl, rfl, fun t0 ht0 => ht0⟩⟩
    | false =>
      simp only [insertArtists, ha, Bool.false_eq_true, ite_false]
      rcases List.mem_cons.1 h with h1 | h1
      · subst h1
        exact ⟨a, List.mem_cons_self _ _, rfl,
          fun al hal => ⟨al, hal, rfl, rfl, fun t0 ht0 => ht0⟩⟩
      · obtain ⟨a2, hm, h3⟩ := ih h1
        exact ⟨a2, List.mem_cons_of_mem _ hm, h3⟩

/-- `insertArtists` files `t` under an artist titled `n`, inside an album
titled `β`. -/
theorem insertArtists_places (n β : String) (y : Int) (t : Track)
    (l : List Artist) :
    ∃ a2 ∈ insertArtists n β y t l, a2.title = n ∧
      ∃ al2 ∈ a2.albums, al2.title = β ∧ t ∈ al2.tracks := by
  induction l with
  | nil =>
    refine ⟨(Artist.new n).add_album ((Album.new β n y).update_album t),
      by simp [insertArtists], rfl, (Album.new β n y).update_album t, ?_, rfl,
      by simp [Album.new, Album.update_album]⟩
    simp [Artist.new, Artist.add_album]
  | cons a rest ih =>
    cases ha : (a.title == n) with
    | true =>
      obtain ⟨al2, hm, h1, h2⟩ := insertAlbums_places β n y t a.albums
      refine ⟨{ a with albums := insertAlbums β n y t a.albums }, ?_,
        eq_of_beq ha, al2, hm, h1, h2⟩
      simp [insertArtists, ha]
    | false =>
      obtain ⟨a2, hm, h1, h2⟩ := ih
      refine ⟨a2, ?_, h1, h2⟩
      simp only [insertArtists, ha, Bool.false_eq_true, ite_false]
      exact List.mem_cons_of_mem _ hm

/-- One grouping step keeps the library well-formed. -/
theorem DbInv_insertArtists (t : Track) (l : List Artist) (h : DbInv l) :
    DbInv (insertArtists t.album_artist t.album t.year t l) := by
  obtain ⟨h1, h2, h3, h4⟩ := h
  refine ⟨?_, ?_, ?_, ?_⟩
  · rw [insertArtists_map_title]
    cases hany : l.any (fun a => a.title == t.album_artist) with
    | true => simpa using h1
    | false =>
      have hnot : t.album_artist ∉ l.map Artist.title := by
        intro hmem
        obtain ⟨a, ha, htt⟩ := List.mem_map.1 hmem
        have hco : l.any (fun a => a.title == t.album_artist) = true :=
          List.any_eq_true.2 ⟨a, ha, beq_iff_eq.2 htt⟩
        rw [hany] at hco
        cases hco
      simp only [Bool.false_eq_true, ite_false]
      refine List.Nodup.append h1 (List.nodup_singleton _) ?_
      intro x hx hx2
      rw [List.mem_singleton] at hx2
      subst hx2
      exact hnot hx
  · intro a2 ha2
    rcases insertArtists_mem _ _ _ _ _ _ ha2 with hold | ⟨a, ha, htitle, rfl⟩ | rfl
    · exact h2 a2 hold
    · show ((insertAlbums t.album t.album_artist t.year t a.albums).map Album.title).Nodup
      rw [insertAlbums_map_title]
      cases hany : a.albums.any (fun al => al.title == t.album) with
      | true => simpa using h2 a ha
      | false =>
        have hnot : t.album ∉ a.albums.map Album.title := by
          intro hmem
          obtain ⟨al, hal, htt⟩ := List.mem_map.1 hmem
          have hco : a.albums.any (fun al => al.title == t.album) = true :=
            List.any_eq_true.2 ⟨al, hal, beq_iff_eq.2 htt⟩
          rw [hany] at hco
          cases hco
        simp only [Bool.false_eq_true, ite_false]
        refine List.Nodup.append (h2 a ha) (List.nodup_singleton _) ?_
        intro x hx hx2
        rw [List.mem_singleton] at hx2
        subst hx2
        exact hnot hx
    · simp [Artist.new, Artist.add_album]
  · intro a2 ha2 al hal
    rcases insertArtists_mem _ _ _ _ _ _ ha2 with hold | ⟨a, ha, htitle, rfl⟩ | rfl
    · exact h3 a2 hold al hal
    · rcases insertAlbums_mem _ _ _ _ _ _ hal with halold | ⟨al1, hal1, halt, rfl⟩ | rfl
      · exact h3 a ha al halold
      · exact h3 a ha al1 hal1
      · exact htitle.symm
    · simp only [Artist.new, Artist.add_album, List.nil_append,
        List.mem_singleton] at hal
      subst hal
      rfl
  · intro a2 ha2 al hal t0 ht0
    rcases insertArtists_mem _ _ _ _ _ _ ha2 with hold | ⟨a, ha, htitle, rfl⟩ | rfl
    · exact h4 a2 hold al hal t0 ht0
    · rcases insertAlbums_mem _ _ _ _ _ _ hal with halold | ⟨al1, hal1, halt, rfl⟩ | rfl
      · exact h4 a ha al halold t0 ht0
      · simp only [Album.update_album, List.mem_append, List.mem_singleton] at ht0
        rcases ht0 with h5 | h5
        · exact h4 a ha al1 hal1 t0 h5
        · subst h5
          exact ⟨htitle.symm, halt.symm⟩
      · simp only [Album.new, Album.update_album, List.nil_append,
          List.mem_singleton] at ht0
        subst ht0
        exact ⟨htitle.symm, rfl⟩
    · simp only [Artist.new, Artist.add_album, List.nil_append,
        List.mem_singleton] at hal
      subst hal
      simp only [Album.new, Album.update_album, List.nil_append,
        List.mem_singleton] at ht0
      subst ht0
      exact ⟨rfl, rfl⟩

/-- One grouping step, phrased on the code path. -/
theorem DbInv_helper (t : Track) (l : List Artist) (h : DbInv l) :
    DbInv (add_to_database_helper t l) := by
  rw [add_to_database_helper, add_to_database_eq_insertArtists]
  exact DbInv_insertArtists t l h

/-- Grouping a new track never loses a previously filed track. -/
theorem Placed_helper_mono (t t0 : Track) (l : List Artist) (h : Placed l t0) :
    Placed (add_to_database_helper t l) t0 := by
  rw [add_to_database_helper, add_to_database_eq_insertArtists]
  obtain ⟨a, ha, al, hal, ht0⟩ := h
  obtain ⟨a2, hm2, _, hpres⟩ := insertArtists_preserve _ _ _ _ _ a ha
  obtain ⟨al2, hm3, _, _, htr⟩ := hpres al hal
  exact ⟨a2, hm2, al2, hm3, htr t0 ht0⟩

/-- Grouping files the new track somewhere in the library. -/
theorem Placed_helper_self (t : Track) (l : List Artist) :
    Placed (add_to_database_helper t l) t := by
  rw [add_to_database_helper, add_to_database_eq_insertArtists]
  obtain ⟨a2, hm, _, al2, hm2, _, ht⟩ := insertArtists_places _ _ _ _ l
  exact ⟨a2, hm, al2, hm2, ht⟩

/-- Folding the grouping step over a track list, from any well-formed
start state: the result is well-formed, old placements survive, and every
folded track is placed. -/
theorem foldl_db_inv (ts : List Track) (l : List Artist) (h : DbInv l) :
    DbInv (ts.foldl (fun acc t => add_to_database_helper t acc) l) ∧
    (∀ t0, Placed l t0 →
      Placed (ts.foldl (fun acc t => add_to_database_helper t acc) l) t0) ∧
    (∀ t ∈ ts, Placed (ts.foldl (fun acc t => add_to_database_helper t acc) l) t) := by
  induction ts generalizing l with
  | nil =>
    refine ⟨h, fun t0 hp => hp, ?_⟩
    intro t ht
    cases ht
  | cons t ts ih =>
    simp only [List.foldl_cons]
    obtain ⟨ih1, ih2, ih3⟩ := ih (add_to_database_helper t l) (DbInv_helper t l h)
    refine ⟨ih1, ?_, ?_⟩
    · intro t0 hp
      exact ih2 t0 (Placed_helper_mono t t0 l hp)
    · intro t1 ht1
      rcases List.mem_cons.1 ht1 with h1 | h1
      · subst h1
        exact ih2 t1 (Placed_helper_self t1 l)
      · exact ih3 t1 h1

/-- The grouped library is well-formed and holds every ingested track. -/
theorem buildDatabase_inv (ts : List Track) :
    DbInv (buildDatabase ts) ∧ ∀ t ∈ ts, Placed (buildDatabase ts) t := by
  have h0 : DbInv ([] : List Artist) := by
    refine ⟨by simp, ?_, ?_, ?_⟩ <;> intro a ha <;> cases ha
  obtain ⟨h1, _, h3⟩ := foldl_db_inv ts [] h0
  exact ⟨h1, h3⟩

/-- Claim C2: two ingested tracks with exactly equal `album_artist` and
equal album-title strings end up in one single Album of one single Artist
(and nowhere else); tracks with equal album titles but different
`album_artist` strings end up in two distinct Albums under two distinct
Artists.  Matching is exact, case-sensitive string equality. -/
theorem grouping_by_exact_key (ts : List Track) (t1 t2 : Track)
    (h1 : t1 ∈ ts) (h2 : t2 ∈ ts) :
    (t1.album_artist = t2.album_artist → t1.album = t2.album →
      ∃ a al, a ∈ buildDatabase ts ∧ al ∈ a.albums ∧ t1 ∈ al.tracks ∧
        t2 ∈ al.tracks ∧
        ∀ a2 al2, a2 ∈ buildDatabase ts → al2 ∈ a2.albums →
          (t1 ∈ al2.tracks ∨ t2 ∈ al2.tracks) → a2 = a ∧ al2 = al) ∧
    (t1.album = t2.album → t1.album_artist ≠ t2.album_artist →
      ∃ a1 al1 a2 al2, a1 ∈ buildDatabase ts ∧ al1 ∈ a1.albums ∧
        t1 ∈ al1.tracks ∧ a2 ∈ buildDatabase ts ∧ al2 ∈ a2.albums ∧
        t2 ∈ al2.tracks ∧ a1 ≠ a2 ∧ al1 ≠ al2) := by
  obtain ⟨⟨hn1, hn2, hart, hkey⟩, hplace⟩ := buildDatabase_inv ts
  obtain ⟨a1, ha1, al1, hal1, ht1⟩ := hplace t1 h1
  obtain ⟨a2, ha2, al2, hal2, ht2⟩ := hplace t2 h2
  have k1 := hkey a1 ha1 al1 hal1 t1 ht1
  have k2 := hkey a2 ha2 al2 hal2 t2 ht2
  constructor
  · intro hkaa hkal
    have hteq : a2.title = a1.title := by rw [← k2.1, ← k1.1, hkaa]
    have haeq : a2 = a1 := List.inj_on_of_nodup_map hn1 ha2 ha1 hteq
    rw [haeq] at ha2 hal2 k2
    have haleq : al2 = al1 := by
      apply List.inj_on_of_nodup_map (hn2 a1 ha1) hal2 hal1
      rw [← k2.2, ← k1.2, hkal]
    rw [haleq] at hal2 ht2 k2
    refine ⟨a1, al1, ha1, hal1, ht1, ht2, ?_⟩
    intro a3 al3 ha3 hal3 hmem
    have hk3 : a3.title = a1.title ∧ al3.title = al1.title := by
      rcases hmem with hm | hm
      · have k3 := hkey a3 ha3 al3 hal3 t1 hm
        constructor
        · rw [← k3.1, k1.1]
        · rw [← k3.2, k1.2]
      · have k3 := hkey a3 ha3 al3 hal3 t2 hm
        constructor
        · rw [← k3.1, k2.1]
        · rw [← k3.2, k2.2]
    have ha31 : a3 = a1 := List.inj_on_of_nodup_map hn1 ha3 ha1 hk3.1
    refine ⟨ha31, ?_⟩
    rw [ha31] at hal3
    exact List.inj_on_of_nodup_map (hn2 a1 ha1) hal3 hal1 hk3.2
  · intro hkal hkaa
    refine ⟨a1, al1, a2, al2, ha1, hal1, ht1, ha2, hal2, ht2, ?_, ?_⟩
    · intro heq
      apply hkaa
      rw [k1.1, k2.1, heq]
    · intro heq
      apply hkaa
      have e1 := hart a1 ha1 al1 hal1
      have e2 := hart a2 ha2 al2 hal2
      rw [k1.1, k2.1, ← e1, ← e2, heq]

/-- Witness for C2 at two concrete tracks sharing the (album_artist,
album) key. -/
theorem grouping_by_exact_key_witness :
    ∃ a al,
      a ∈ buildDatabase
        [⟨"s1", "X", "A", 0, 1, "p1"⟩, ⟨"s2", "X", "A", 0, 2, "p2"⟩] ∧
      al ∈ a.albums ∧ (⟨"s1", "X", "A", 0, 1, "p1"⟩ : Track) ∈ al.tracks ∧
      (⟨"s2", "X", "A", 0, 2, "p2"⟩ : Track) ∈ al.tracks ∧
      ∀ a2 al2,
        a2 ∈ buildDatabase
          [⟨"s1", "X", "A", 0, 1, "p1"⟩, ⟨"s2", "X", "A", 0, 2, "p2"⟩] →
        al2 ∈ a2.albums →
        ((⟨"s1", "X", "A", 0, 1, "p1"⟩ : Track) ∈ al2.tracks ∨
          (⟨"s2", "X", "A", 0, 2, "p2"⟩ : Track) ∈ al2.tracks) →
        a2 = a ∧ al2 = al :=
  (grouping_by_exact_key
    [⟨"s1", "X", "A", 0, 1, "p1"⟩, ⟨"s2", "X", "A", 0, 2, "p2"⟩]
    ⟨"s1", "X", "A", 0, 1, "p1"⟩ ⟨"s2", "X", "A", 0, 2, "p2"⟩
    (by simp) (by simp)).1 rfl rfl

/-- Claim C9: a walk entry is eligible iff it is a non-directory whose
extension is exactly one of "mp3", "flac", "ogg" (case-sensitive); any
other extension, uppercase variants, or a missing extension is ignored. -/
theorem is_music_iff (entry : DirEntry) :
    is_music entry = true ↔
      entry.is_dir = false ∧
        (entry.ext = some "mp3" ∨ entry.ext = some "flac" ∨
          entry.ext = some "ogg") := by
  rcases entry with ⟨d, e, p⟩
  cases d with
  | true => simp [is_music]
  | false =>
    constructor
    · intro h
      simp only [is_music, Bool.false_eq_true, if_false, ite_false] at h
      refine ⟨rfl, ?_⟩
      split at h
      · exact Or.inl rfl
      · exact Or.inr (Or.inl rfl)
      · exact Or.inr (Or.inr rfl)
      · cases h
      · cases h
    · rintro ⟨-, h | h | h⟩ <;> (dsimp only at h; subst h; rfl)

/-- Claim C7: a skippable per-file failure (an unreadable walk entry, i.e.
an `Err` result, or a file whose metadata fails to parse into a Track)
drops exactly that file: the library built from the walk containing the
bad entry equals the one built without it, so no partial track is added
and the walk continues over the remaining entries. -/
theorem skippable_entry_dropped (pre post : List (Option DirEntry))
    (bad : Option DirEntry)
    (h : bad = none ∨ ∃ e, bad = some e ∧ e.track_new = none) :
    create_and_load_database (pre ++ bad :: post) =
      create_and_load_database (pre ++ post) := by
  unfold create_and_load_database ingestWalk
  congr 1
  rw [List.foldl_append, List.foldl_append, List.foldl_cons]
  congr 1
  rcases h with rfl | ⟨e, rfl, he⟩
  · rfl
  · simp only [he]
    cases is_music e <;> simp

/-- Witness for C7 at a concrete unreadable entry and a concrete
parse-failure entry. -/
theorem skippable_entry_dropped_witness :
    create_and_load_database
        [none, some ⟨false, some "mp3", none⟩, some ⟨false, some "mp3",
          some ⟨"s", "X", "A", 0, 1, "p"⟩⟩] =
      create_and_load_database
        [some ⟨false, some "mp3", some ⟨"s", "X", "A", 0, 1, "p"⟩⟩] := by
  have h1 := skippable_entry_dropped []
    [some ⟨false, some "mp3", none⟩, some ⟨false, some "mp3",
      some ⟨"s", "X", "A", 0, 1, "p"⟩⟩] none (Or.inl rfl)
  have h2 := skippable_entry_dropped []
    [some ⟨false, some "mp3", some ⟨"s", "X", "A", 0, 1, "p"⟩⟩]
    (some ⟨false, some "mp3", none⟩)
    (Or.inr ⟨⟨false, some "mp3", none⟩, rfl, rfl⟩)
  exact h1.trans h2

/-- The modelled comparator is total. -/
theorem charListLe_total (as bs : List Char) :
    charListLe as bs = true ∨ charListLe bs as = true := by
  induction as generalizing bs with
  | nil => exact Or.inl rfl
  | cons a as ih =>
    cases bs with
    | nil => exact Or.inr rfl
    | cons b bs =>
      by_cases h1 : a.toNat < b.toNat
      · exact Or.inl (by simp [charListLe, h1])
      · by_cases h2 : b.toNat < a.toNat
        · exact Or.inr (by simp [charListLe, h2])
        · rcases ih bs with h | h
          · exact Or.inl (by simp [charListLe, h1, h2, h])
          · exact Or.inr (by simp [charListLe, h1, h2, h])

/-- The modelled comparator is transitive. -/
theorem charListLe_trans (as bs cs : List Char) (h1 : charListLe as bs = true)
    (h2 : charListLe bs cs = true) : charListLe as cs = true := by
  induction as generalizing bs cs with
  | nil => rfl
  | cons a as ih =>
    cases bs with
    | nil => cases h1
    | cons b bs =>
      cases cs with
      | nil => cases h2
      | cons c cs =>
        by_cases hab : a.toNat < b.toNat <;> by_cases hbc : b.toNat < c.toNat
        · have hac : a.toNat < c.toNat := lt_trans hab hbc
          simp [charListLe, hac]
        · by_cases hcb : c.toNat < b.toNat
          · simp [charListLe, hbc, hcb] at h2
          · have hbceq : b.toNat = c.toNat :=
              Nat.le_antisymm (Nat.le_of_not_lt hcb) (Nat.le_of_not_lt hbc)
            have hac : a.toNat < c.toNat := hbceq ▸ hab
            simp [charListLe, hac]
        · by_cases hba : b.toNat < a.toNat
          · simp [charListLe, hab, hba] at h1
          · have habeq : a.toNat = b.toNat :=
              Nat.le_antisymm (Nat.le_of_not_lt hba) (Nat.le_of_not_lt hab)
            have hac : a.toNat < c.toNat := habeq ▸ hbc
            simp [charListLe, hac]
        · by_cases hba : b.toNat < a.toNat
          · simp [charListLe, hab, hba] at h1
          · by_cases hcb : c.toNat < b.toNat
            · simp [charListLe, hbc, hcb] at h2
            · have h1a : charListLe as bs = true := by
                simpa [charListLe, hab, hba] using h1
              have h2a : charListLe bs cs = true := by
                simpa [charListLe, hbc, hcb] using h2
              have habeq : a.toNat = b.toNat :=
                Nat.le_antisymm (Nat.le_of_not_lt hba) (Nat.le_of_not_lt hab)
              have hbceq : b.toNat = c.toNat :=
                Nat.le_antisymm (Nat.le_of_not_lt hcb) (Nat.le_of_not_lt hbc)
              have hac : ¬ a.toNat < c.toNat := by omega
              have hca : ¬ c.toNat < a.toNat := by omega
              simp [charListLe, hac, hca, ih bs cs h1a h2a]

/-- The artist comparator is transitive. -/
theorem artistLe_trans (a b c : Artist) (h1 : artistLe a b = true)
    (h2 : artistLe b c = true) : artistLe a c = true :=
  charListLe_trans _ _ _ h1 h2

/-- The artist comparator is total. -/
theorem artistLe_total (a b : Artist) : (artistLe a b || artistLe b a) = true := by
  rcases charListLe_total (strToLower a.title).data (strToLower b.title).data with h | h <;>
    simp [artistLe, h]

/-- Claim C3: after the builder completes, the returned artist sequence is
sorted ascending under the case-insensitive comparator (and is a
permutation of the grouped artists); on the spec's example, artists
ingested in order "beta", "Alpha", "gamma" come out as
["Alpha", "beta", "gamma"]. -/
theorem artists_sorted_case_insensitive (walk : List (Option DirEntry)) :
    List.Pairwise (fun a b : Artist => artistLe a b = true)
      (create_and_load_database walk) ∧
    (create_and_load_database walk).Perm (ingestWalk walk) ∧
    (create_and_load_database exampleWalkC3).map Artist.title =
      ["Alpha", "beta", "gamma"] := by
  refine ⟨?_, List.mergeSort_perm _ _, ?_⟩
  · exact @List.sorted_mergeSort Artist artistLe
      (fun a b c hab hbc => artistLe_trans a b c hab hbc) artistLe_total
      (ingestWalk walk)
  · have h1 : ingestWalk exampleWalkC3 = [betaC3, alphaC3, gammaC3] := by decide
    show (List.mergeSort (ingestWalk exampleWalkC3) artistLe).map Artist.title = _
    rw [h1]
    have hperm := List.mergeSort_perm [betaC3, alphaC3, gammaC3] artistLe
    have hsort := @List.sorted_mergeSort Artist artistLe
      (fun a b c hab hbc => artistLe_trans a b c hab hbc) artistLe_total
      [betaC3, alphaC3, gammaC3]
    have hlen : (List.mergeSort [betaC3, alphaC3, gammaC3] artistLe).length = 3 :=
      hperm.length_eq
    obtain ⟨x1, x2, x3, hx⟩ := List.length_eq_three.1 hlen
    rw [hx] at hperm hsort ⊢
    have hnodup : ([x1, x2, x3] : List Artist).Nodup :=
      hperm.nodup_iff.2 (by decide)
    have m1 : x1 ∈ [betaC3, alphaC3, gammaC3] := hperm.subset (by simp)
    have m2 : x2 ∈ [betaC3, alphaC3, gammaC3] := hperm.subset (by simp)
    have m3 : x3 ∈ [betaC3, alphaC3, gammaC3] := hperm.subset (by simp)
    simp only [List.mem_cons, List.not_mem_nil, or_false] at m1 m2 m3
    rcases m1 with rfl | rfl | rfl <;> rcases m2 with rfl | rfl | rfl <;>
      rcases m3 with rfl | rfl | rfl <;> revert hsort hnodup <;> decide

/-- Reading back the encoded characters recovers them and leaves the rest
of the stream untouched. -/
theorem decodeChars_encode (cs : List Char) (rest : List Int) :
    decodeChars cs.length (cs.map (fun c => (c.toNat : Int)) ++ rest) =
      some (cs, rest) := by
  induction cs with
  | nil => rfl
  | cons c cs ih =>
    simp [decodeChars, ih, Int.toNat_natCast, Char.ofNat_toNat]

/-- Reading back an encoded string recovers it. -/
theorem decodeString_encode (s : String) (rest : List Int) :
    decodeString (encodeString s ++ rest) = some (s, rest) := by
  unfold decodeString encodeString decodeNat
  have hneg : ¬ ((s.length : Int) < 0) := by simp
  simp [hneg, Int.toNat_natCast]
  rw [show s.length = s.data.length from rfl, decodeChars_encode]
  rfl

/-- Reading back `n` encoded records recovers them, provided each record's
decoder inverts its encoder. -/
theorem decodeCount_encode (enc : α → List Int)
    (dec : List Int → Option (α × List Int)) (l : List α) (rest : List Int)
    (h : ∀ x ∈ l, ∀ r, dec (enc x ++ r) = some (x, r)) :
    decodeCount dec l.length ((l.map enc).flatten ++ rest) = some (l, rest) := by
  induction l with
  | nil => rfl
  | cons x xs ih =>
    simp only [List.length_cons, List.map_cons, List.flatten_cons, List.append_assoc,
      decodeCount]
    rw [h x (List.mem_cons_self x xs) ((xs.map enc).flatten ++ rest)]
    simp [ih (fun y hy r => h y (List.mem_cons_of_mem x hy) r)]

/-- Reading back an encoded sequence recovers it. -/
theorem decodeList_encode (enc : α → List Int)
    (dec : List Int → Option (α × List Int)) (l : List α) (rest : List Int)
    (h : ∀ x ∈ l, ∀ r, dec (enc x ++ r) = some (x, r)) :
    decodeList dec (encodeList enc l ++ rest) = some (l, rest) := by
  unfold decodeList encodeList decodeNat
  have hneg : ¬ ((l.length : Int) < 0) := by simp
  simp [hneg, Int.toNat_natCast, decodeCount_encode enc dec l rest h]

/-- Reading back an encoded Track recovers it. -/
theorem decodeTrack_encode (t : Track) (rest : List Int) :
    decodeTrack (encodeTrack t ++ rest) = some (t, rest) := by
  unfold decodeTrack encodeTrack
  have hneg : ¬ ((t.duration : Int) < 0) := by simp
  simp [List.append_assoc, decodeString_encode, decodeInt, decodeNat, hneg,
    Int.toNat_natCast]

/-- Reading back an encoded Album recovers it. -/
theorem decodeAlbum_encode (al : Album) (rest : List Int) :
    decodeAlbum (encodeAlbum al ++ rest) = some (al, rest) := by
  unfold decodeAlbum encodeAlbum
  simp [List.append_assoc, decodeString_encode, decodeInt,
    decodeList_encode encodeTrack decodeTrack al.tracks rest
      (fun x _ r => decodeTrack_encode x r)]

/-- Reading back an encoded Artist recovers it. -/
theorem decodeArtist_encode (a : Artist) (rest : List Int) :
    decodeArtist (encodeArtist a ++ rest) = some (a, rest) := by
  unfold decodeArtist encodeArtist
  simp [List.append_assoc, decodeString_encode,
    decodeList_encode encodeAlbum decodeAlbum a.albums rest
      (fun x _ r => decodeAlbum_encode x r)]

/-- Claim C4: persisting a library and loading the snapshot back yields the
identical library (serialize-then-deserialize is the identity). -/
theorem serialize_roundtrip (artists : List Artist) :
    deserialize_from (serialize_into artists) = some artists := by
  unfold serialize_into deserialize_from
  have h := decodeList_encode encodeArtist decodeArtist artists []
    (fun x _ r => decodeArtist_encode x r)
  rw [List.append_nil] at h
  rw [h]
  simp

/-- Claim C8: an empty query string performs no search and changes nothing;
a non-empty query without a recognized scope marker parses to no query
object, so no search runs and `search_results` stays unchanged (only the
input buffer is cleared); `search_results` is replaced only when the query
parses to exactly one scope. -/
theorem search_requires_parsed_scope (engine : EngineGroup) (ui : UI) :
    (ui.search_input = "" → UI.search engine ui = ui) ∧
    (ui.search_input ≠ "" → SearchQuery.new ui.search_input = none →
      (UI.search engine ui).search_results = ui.search_results ∧
      UI.search engine ui = { ui with search_input := "" }) ∧
    ((UI.search engine ui).search_results ≠ ui.search_results →
      ui.search_input ≠ "" ∧ ∃ q, SearchQuery.new ui.search_input = some q) := by
  by_cases hin : ui.search_input = ""
  · refine ⟨fun _ => ?_, fun hne _ => absurd hin hne, fun hres => ?_⟩
    · unfold UI.search
      simp [hin]
    · exfalso
      apply hres
      unfold UI.search
      simp [hin]
  · cases hq : SearchQuery.new ui.search_input with
    | none =>
      refine ⟨fun he => absurd he hin, fun _ _ => ?_, fun hres => ?_⟩
      · constructor <;> (unfold UI.search; simp [hin, hq])
      · exfalso
        apply hres
        unfold UI.search
        simp [hin, hq]
    | some q =>
      refine ⟨fun he => absurd he hin, fun _ hnone => ?_, fun _ => ⟨hin, q, rfl⟩⟩
      cases hnone

/-- Witness for C8: with the pending query "xyz" (no scope marker) the
displayed search results are untouched. -/
theorem search_requires_parsed_scope_witness :
    (UI.search emptyEngine uiNoScope).search_results = uiNoScope.search_results :=
  ((search_requires_parsed_scope emptyEngine uiNoScope).2.1 (by decide)
    (by decide)).1

/-- Counterexample to C10 as stated: `UI::new` succeeds on a library whose
first album holds no tracks at all — the constructor indexes position 0 of
the artist list and of the first artist's album list, but only reads (never
indexes) the first album's track list. -/
theorem ui_new_trackless_album_ok :
    (UI.new [⟨"A", [⟨"X", "A", 0, []⟩]⟩]).isSome = true := by decide

/-- Claim C10 (amended): `UI::new` is defined exactly when the library has
a first artist with a non-empty album list (the first album's track list
may be empty, since the constructor never indexes into it); `select_next`,
`on_down_search` and `on_up_search` are undefined on empty lists (modulo
by zero or index underflow) and, on non-empty lists, keep the selected
index strictly below the list length (for the wrap-back branch of
`on_up_search`, given it was in bounds before). -/
theorem ui_construction_and_navigation {I : Type} (db : List Artist)
    (s : ListState I) (ui : UI) :
    (UI.new db = none ↔ db = [] ∨ ∃ a0 rest, db = a0 :: rest ∧ a0.albums = []) ∧
    (s.select_next = none ↔ s.items = []) ∧
    (∀ s2, s.select_next = some s2 → s2.selected < s.items.length) ∧
    (ui.on_down_search = none ↔ ui.search_results = []) ∧
    (∀ ui2, ui.on_down_search = some ui2 →
      ui2.search_select < ui.search_results.length) ∧
    (ui.on_up_search = none ↔ ui.search_select = 0 ∧ ui.search_results = []) ∧
    (∀ ui2, ui.on_up_search = some ui2 →
      ui.search_select < ui.search_results.length →
      ui2.search_select < ui.search_results.length) := by
  refine ⟨?_, ?_, ?_, ?_, ?_, ?_, ?_⟩
  · cases db with
    | nil => simp [UI.new]
    | cons a0 rest =>
      cases hal : a0.albums with
      | nil => simp [UI.new, hal]
      | cons al0 als => simp [UI.new, hal]
  · unfold ListState.select_next
    constructor
    · intro h
      by_cases hl : s.items.length = 0
      · exact List.length_eq_zero.1 hl
      · rw [if_neg hl] at h
        cases h
    · intro h
      simp [h]
  · intro s2 h2
    unfold ListState.select_next at h2
    by_cases hl : s.items.length = 0
    · rw [if_pos hl] at h2
      cases h2
    · rw [if_neg hl] at h2
      injection h2 with h3
      subst h3
      exact Nat.mod_lt _ (Nat.pos_of_ne_zero hl)
  · unfold UI.on_down_search
    constructor
    · intro h
      by_cases hl : ui.search_results.length = 0
      · exact List.length_eq_zero.1 hl
      · rw [if_neg hl] at h
        cases h
    · intro h
      simp [h]
  · intro ui2 h2
    unfold UI.on_down_search at h2
    by_cases hl : ui.search_results.length = 0
    · rw [if_pos hl] at h2
      cases h2
    · rw [if_neg hl] at h2
      injection h2 with h3
      subst h3
      exact Nat.mod_lt _ (Nat.pos_of_ne_zero hl)
  · unfold UI.on_up_search
    constructor
    · intro h
      by_cases hpos : ui.search_select > 0
      · rw [if_pos hpos] at h
        cases h
      · rw [if_neg hpos] at h
        by_cases hl : ui.search_results.length = 0
        · exact ⟨Nat.eq_zero_of_not_pos hpos, List.length_eq_zero.1 hl⟩
        · rw [if_neg hl] at h
          cases h
    · rintro ⟨h0, hres⟩
      simp [h0, hres]
  · intro ui2 h2 hbound
    unfold UI.on_up_search at h2
    by_cases hpos : ui.search_select > 0
    · rw [if_pos hpos] at h2
      injection h2 with h3
      subst h3
      show ui.search_select - 1 < _
      omega
    · rw [if_neg hpos] at h2
      by_cases hl : ui.search_results.length = 0
      · rw [if_pos hl] at h2
        cases h2
      · rw [if_neg hl] at h2
        injection h2 with h3
        subst h3
        show ui.search_results.length - 1 < _
        omega

/-- Witness for the amended C10 at concrete inputs: construction fails on
the empty library, and stepping the selection on a one-row result list is
defined and stays in bounds. -/
theorem ui_construction_and_navigation_witness :
    UI.new [] = none ∧
    (ListState.mk [Media.Track Track.dummy] 0).select_next ≠ none :=
  ⟨(ui_construction_and_navigation []
      (ListState.mk [Media.Track Track.dummy] 0) uiNoScope).1.2 (Or.inl rfl),
   fun h =>
     absurd ((ui_construction_and_navigation []
       (ListState.mk [Media.Track Track.dummy] 0) uiNoScope).2.1.1 h)
       (by decide)⟩
